import Mathlib

/-!
Verification of the tree synchronization and traversal engine of a FAT
filesystem image manipulation tool, shallowly embedded from `src/main.rs`.
-/

/-- Splitting a character list on the separator character `/`, mirroring
`p.split("/")` from `normalize_inner_path`: every separator opens a new
(possibly empty) segment, and the empty input yields one empty segment. -/
def splitOnSlash : List Char → List (List Char)
  | [] => [[]]
  | c :: rest =>
    if c = '/' then
      [] :: splitOnSlash rest
    else
      match splitOnSlash rest with
      | [] => [[c]]
      | s :: ss => (c :: s) :: ss

/-- Embedding of `normalize_inner_path` (src/main.rs lines 101-111), segment
view: strip the single leading `/` (failing like the
`expect("Absolute path required")` panic when it is absent), split the
remainder on `/`, and keep only the non-empty segments. -/
def normalize_core : List Char → Option (List String)
  | [] => none
  | c :: rest =>
    if c = '/' then
      some (((splitOnSlash rest).filter (fun s => s ≠ [])).map (fun s => String.mk s))
    else
      none

/-- Entry point over `String`, as in the source (the path argument is a
Rust `String`); its character data is what gets stripped and split. -/
def normalize_inner_path_segments (p : String) : Option (List String) :=
  normalize_core p.data

/-- Embedding of `normalize_inner_path`, string view: the segments joined
back with `/`, as `result.join("/")` does in the source. -/
def normalize_inner_path (p : String) : Option String :=
  (normalize_inner_path_segments p).map (fun l => String.intercalate "/" l)

/-- Every command arm of `main` normalizes the inner path first and only then
opens the image file and performs I/O; the continuation `k` stands for that
I/O part of the command. When normalization fails the continuation is never
reached, matching the panic in `normalize_inner_path` firing before any
`File::open`. -/
def run_with_inner_path {α : Type} (p : String) (k : List String → Except String α) :
    Except String α :=
  match normalize_inner_path_segments p with
  | none => Except.error "Absolute path required"
  | some segs => k segs

theorem splitOnSlash_nonempty (cs : List Char) : splitOnSlash cs ≠ [] := by
  induction cs with
  | nil => simp [splitOnSlash]
  | cons c rest ih =>
    simp only [splitOnSlash]
    split
    · simp
    · cases h : splitOnSlash rest with
      | nil => simp
      | cons s ss => simp

theorem mem_normalize_ne_empty {p : String} {l : List String} {s : String}
    (hp : normalize_inner_path_segments p = some l) (hs : s ∈ l) : s ≠ "" := by
  unfold normalize_inner_path_segments at hp
  rcases h : p.data with _ | ⟨c, rest⟩ <;> rw [h] at hp
  · exact absurd hp (by simp [normalize_core])
  · by_cases hc : c = '/'
    · rw [normalize_core, if_pos hc] at hp
      obtain rfl : ((splitOnSlash rest).filter (fun s => s ≠ [])).map
          (fun s => String.mk s) = l := by
        exact Option.some.inj hp
      obtain ⟨t, ht, rfl⟩ := List.mem_map.mp hs
      have hne : t ≠ [] := by
        have := List.mem_filter.mp ht
        simpa using this.2
      intro hcon
      apply hne
      have h2 := congrArg String.data hcon
      simpa using h2
    · rw [normalize_core, if_neg hc] at hp
      exact absurd hp (by simp)

/-- C5: for every input string starting with `/`, `normalize_inner_path`
returns the `/`-separated segments of the remainder with every empty segment
discarded, so no segment of the result is empty; in particular `/a//b/`
normalizes to `[a, b]` (joined back as `a/b`). -/
theorem normalize_inner_path_correct :
    (∀ (p : String) (rest : List Char), p.data = '/' :: rest →
      normalize_inner_path_segments p =
        some (((splitOnSlash rest).filter (fun s => s ≠ [])).map (fun s => String.mk s)) ∧
      ∀ s, (normalize_inner_path_segments p).elim False (fun l => s ∈ l) → s ≠ "") ∧
    normalize_inner_path_segments "/a//b/" = some ["a", "b"] ∧
    normalize_inner_path "/a//b/" = some "a/b" := by
  refine ⟨?_, by decide, by decide⟩
  intro p rest h
  constructor
  · unfold normalize_inner_path_segments
    rw [h]
    simp [normalize_core]
  · intro s hs
    rcases hl : normalize_inner_path_segments p with _ | l
    · rw [hl] at hs
      exact absurd hs (by simp)
    · rw [hl] at hs
      exact mem_normalize_ne_empty hl (by simpa using hs)

/-- C5 witness: instantiation at the concrete input `/a//b/`. -/
theorem normalize_inner_path_correct_witness :
    normalize_inner_path_segments "/a//b/" =
      some (((splitOnSlash "a//b/".data).filter (fun s => s ≠ [])).map
        (fun s => String.mk s)) :=
  (normalize_inner_path_correct.1 "/a//b/" "a//b/".data (by decide)).1

/-- C6: for every input string not starting with `/`, normalization fails
(the `Absolute path required` panic), and every command built on it fails
without its I/O continuation ever being invoked. -/
theorem normalize_inner_path_rejects_relative (p : String)
    (h : p.data.head? ≠ some '/') :
    normalize_inner_path_segments p = none ∧
    ∀ (α : Type) (k : List String → Except String α),
      run_with_inner_path p k = Except.error "Absolute path required" := by
  have hnone : normalize_inner_path_segments p = none := by
    unfold normalize_inner_path_segments
    rcases hd : p.data with _ | ⟨c, rest⟩
    · rfl
    · rw [hd] at h
      rw [normalize_core, if_neg (by simpa using h)]
  refine ⟨hnone, ?_⟩
  intro α k
  unfold run_with_inner_path
  rw [hnone]

/-- C6 witness: the relative path `abc` is rejected before any I/O. -/
theorem normalize_inner_path_rejects_relative_witness :
    normalize_inner_path_segments "abc" = none ∧
    run_with_inner_path "abc" (fun segs => Except.ok segs.length) =
      Except.error "Absolute path required" := by
  have h := normalize_inner_path_rejects_relative "abc" (by decide)
  exact ⟨h.1, h.2 Nat (fun segs => Except.ok segs.length)⟩

/-- C7 counterexample: normalization passes a literal `.` segment through
unchanged, so the produced `PathSegments` value for the input `/.` contains
the segment `.`, violating the claimed invariant. -/
theorem normalize_inner_path_dot_counterexample :
    normalize_inner_path_segments "/." = some ["."] ∧
    ¬ (∀ s ∈ (["."] : List String), s ≠ "." ∧ s ≠ "..") := by
  constructor
  · decide
  · intro h
    exact absurd rfl (h "." (by simp)).1

/-- C7 amended: every `PathSegments` value produced by normalization has no
empty segment (literal `.` and `..` segments are passed through unchanged,
so only the non-emptiness half of the claimed invariant holds). -/
theorem normalize_inner_path_no_empty_segment (p : String) (l : List String)
    (hp : normalize_inner_path_segments p = some l) : ∀ s ∈ l, s ≠ "" :=
  fun _ hs => mem_normalize_ne_empty hp hs

/-- C7 amended witness: instantiation at the concrete input `/a//b/` and
its first produced segment. -/
theorem normalize_inner_path_no_empty_segment_witness : ("a" : String) ≠ "" :=
  normalize_inner_path_no_empty_segment "/a//b/" ["a", "b"] (by decide) "a"
    (by simp)

/-- A host filesystem node as seen by `write_tree_to_img` through
`fs::read_dir`: a regular file with its byte contents, a directory with its
child entries, a symlink, or any other special kind (device, socket, ...).
File bytes are modelled as naturals below 256; byte values never matter. -/
inductive HostNode where
  | file (name : String) (contents : List Nat)
  | dir (name : String) (entries : List HostNode)
  | symlink (name : String)
  | special (name : String)

/-- An image filesystem node: the fatfs backend only has files and
directories. -/
inductive ImgNode where
  | file (name : String) (contents : List Nat)
  | dir (name : String) (entries : List ImgNode)

def ImgNode.name : ImgNode → String
  | .file n _ => n
  | .dir n _ => n

/-- An image directory as `cursor.iter()` presents it: the synthetic dot
entries (`.` and `..` for a FAT subdirectory, none for the root directory)
followed by the real child nodes. -/
structure ImgDir where
  dots : List String
  entries : List ImgNode

/-- Entry names a `Dir` cursor yields, in iteration order. -/
def ImgDir.names (d : ImgDir) : List String :=
  d.dots ++ d.entries.map ImgNode.name

def isDotName (s : String) : Bool :=
  s == "." || s == ".."

/-- The fixed-size chunked copy loop of `write_tree_to_img`: read up to 1024
bytes from the host file into `buf`, write `buf[..n]` to the image file,
stop when a read returns 0 bytes. -/
def streamChunks (src : List Nat) : List Nat :=
  if src = [] then []
  else src.take 1024 ++ streamChunks (src.drop 1024)
termination_by src.length
decreasing_by
  simp only [List.length_drop]
  cases src with
  | nil => simp_all
  | cons a l => simp only [List.length_cons]; omega


theorem streamChunks_eq (src : List Nat) : streamChunks src = src := by
  generalize hn : src.length = n
  induction n using Nat.strong_induction_on generalizing src with
  | _ n ih =>
    rw [streamChunks]
    split
    · simp_all
    · rename_i hne
      have hlt : (src.drop 1024).length < src.length := by
        cases src with
        | nil => exact absurd rfl hne
        | cons a l => simp only [List.length_drop, List.length_cons]; omega
      rw [ih (src.drop 1024).length (by omega) (src.drop 1024) rfl]
      exact List.take_append_drop 1024 src

mutual

/-- Embedding of `write_tree_to_img` (src/main.rs lines 177-228). The first
loop inspects the destination cursor: any entry named other than `.` or `..`
hits the `todo!("Ovewrite non-empty directory?")` panic, modelled as an
error carrying that message. Only then is the host directory read and its
entries copied; the freshly created nodes are appended after whatever the
cursor already held. -/
def write_tree_to_img (cursor : ImgDir) (host : List HostNode) :
    Except String (List ImgNode × List String) :=
  if cursor.names.all isDotName then
    match writeHostEntries host with
    | .ok (created, warns) => .ok (cursor.entries ++ created, warns)
    | .error e => .error e
  else
    .error "Ovewrite non-empty directory?"
termination_by (sizeOf host, 1)

/-- The `fs::read_dir` loop body of `write_tree_to_img`, one host entry at a
time, in order. A symlink only triggers the warning on the diagnostic
stream (its file type is neither file nor directory, so nothing is copied);
any other special kind matches none of the branches and is skipped silently;
a regular file is created and its bytes streamed in 1024-byte chunks; a
directory is created (a fresh FAT subdirectory containing just the dot
entries) and recursed into. -/
def writeHostEntries : List HostNode → Except String (List ImgNode × List String)
  | [] => .ok ([], [])
  | HostNode.symlink _ :: rest =>
    match writeHostEntries rest with
    | .ok (created, warns) => .ok (created, "Warning: Not copying a symlink" :: warns)
    | .error e => .error e
  | HostNode.special _ :: rest => writeHostEntries rest
  | HostNode.file n c :: rest =>
    match writeHostEntries rest with
    | .ok (created, warns) => .ok (ImgNode.file n (streamChunks c) :: created, warns)
    | .error e => .error e
  | HostNode.dir n es :: rest =>
    match write_tree_to_img ⟨[".", ".."], []⟩ es with
    | .ok (sub, warns1) =>
      match writeHostEntries rest with
      | .ok (created, warns2) => .ok (ImgNode.dir n sub :: created, warns1 ++ warns2)
      | .error e => .error e
    | .error e => .error e
termination_by l => (sizeOf l, 0)

end

/-- A host subtree contains only regular files and directories,
transitively: no symlinks, no special entries. -/
def isRegularList : List HostNode → Bool
  | [] => true
  | HostNode.file _ _ :: rest => isRegularList rest
  | HostNode.dir _ es :: rest => isRegularList es && isRegularList rest
  | HostNode.symlink _ :: _ => false
  | HostNode.special _ :: _ => false

/-- The specified counterpart of a host subtree inside the image: every
regular file keeps its name and exact byte contents, every directory keeps
its name and its (recursively translated) children, and symlinks and special
entries are excluded. Equality with this translation is the isomorphism the
post-condition of §4.3 describes. -/
def hostToImgList : List HostNode → List ImgNode
  | [] => []
  | HostNode.file n c :: rest => ImgNode.file n c :: hostToImgList rest
  | HostNode.dir n es :: rest => ImgNode.dir n (hostToImgList es) :: hostToImgList rest
  | HostNode.symlink _ :: rest => hostToImgList rest
  | HostNode.special _ :: rest => hostToImgList rest

/-- Modelled from the spec: the `ReadTree` command arm is `todo!("ReadTree")`
in the source, so `TreeReader` (§4.4) is modelled from the spec's words for
the fresh-destination case: for each image entry, a directory is created on
the host and recursed into, and a file is created and its bytes streamed
across in fixed-size chunks in the opposite direction. -/
def read_tree_to_host : List ImgNode → List HostNode
  | [] => []
  | ImgNode.file n c :: rest => HostNode.file n (streamChunks c) :: read_tree_to_host rest
  | ImgNode.dir n es :: rest => HostNode.dir n (read_tree_to_host es) :: read_tree_to_host rest

theorem writeHostEntries_regular (host : List HostNode)
    (h : isRegularList host = true) :
    writeHostEntries host = .ok (hostToImgList host, []) := by
  generalize hn : sizeOf host = n
  induction n using Nat.strong_induction_on generalizing host with
  | _ n ih =>
    subst hn
    match host with
    | [] => simp [writeHostEntries, hostToImgList]
    | HostNode.file nm c :: rest =>
      have hr : isRegularList rest = true := by
        rw [isRegularList] at h
        exact h
      have hsz : sizeOf rest < sizeOf (HostNode.file nm c :: rest) := by
        simp only [List.cons.sizeOf_spec]
        omega
      rw [writeHostEntries, ih (sizeOf rest) hsz rest hr rfl, hostToImgList,
        streamChunks_eq]
    | HostNode.dir nm es :: rest =>
      rw [isRegularList, Bool.and_eq_true] at h
      have hszr : sizeOf rest < sizeOf (HostNode.dir nm es :: rest) := by
        simp only [List.cons.sizeOf_spec]
        omega
      have hsze : sizeOf es < sizeOf (HostNode.dir nm es :: rest) := by
        simp only [List.cons.sizeOf_spec, HostNode.dir.sizeOf_spec]
        omega
      rw [writeHostEntries, write_tree_to_img]
      rw [if_pos (by decide), ih (sizeOf es) hsze es h.1 rfl,
        ih (sizeOf rest) hszr rest h.2 rfl, hostToImgList]
      simp
    | HostNode.symlink nm :: rest => rw [isRegularList] at h; exact absurd h (by simp)
    | HostNode.special nm :: rest => rw [isRegularList] at h; exact absurd h (by simp)

theorem read_tree_hostToImgList (host : List HostNode)
    (h : isRegularList host = true) :
    read_tree_to_host (hostToImgList host) = host := by
  generalize hn : sizeOf host = n
  induction n using Nat.strong_induction_on generalizing host with
  | _ n ih =>
    subst hn
    match host with
    | [] => rw [hostToImgList, read_tree_to_host]
    | HostNode.file nm c :: rest =>
      have hr : isRegularList rest = true := by
        rw [isRegularList] at h
        exact h
      have hsz : sizeOf rest < sizeOf (HostNode.file nm c :: rest) := by
        simp only [List.cons.sizeOf_spec]
        omega
      rw [hostToImgList, read_tree_to_host, ih (sizeOf rest) hsz rest hr rfl,
        streamChunks_eq]
    | HostNode.dir nm es :: rest =>
      rw [isRegularList, Bool.and_eq_true] at h
      have hszr : sizeOf rest < sizeOf (HostNode.dir nm es :: rest) := by
        simp only [List.cons.sizeOf_spec]
        omega
      have hsze : sizeOf es < sizeOf (HostNode.dir nm es :: rest) := by
        simp only [List.cons.sizeOf_spec, HostNode.dir.sizeOf_spec]
        omega
      rw [hostToImgList, read_tree_to_host, ih (sizeOf es) hsze es h.1 rfl,
        ih (sizeOf rest) hszr rest h.2 rfl]
    | HostNode.symlink nm :: rest => rw [isRegularList] at h; exact absurd h (by simp)
    | HostNode.special nm :: rest => rw [isRegularList] at h; exact absurd h (by simp)

/-- C1: writing a host subtree that contains only regular files and
directories into an empty destination image directory (at most the synthetic
dot entries present) succeeds, and the resulting image entries are exactly
the specified translation of the host subtree: same names, identical byte
contents, isomorphic directory structure, nothing else created and no
warnings emitted. -/
theorem write_tree_to_img_correct (dots : List String) (host : List HostNode)
    (hdots : dots.all isDotName = true) (hreg : isRegularList host = true) :
    write_tree_to_img ⟨dots, []⟩ host = .ok (hostToImgList host, []) := by
  have hall : (ImgDir.names ⟨dots, []⟩).all isDotName = true := by
    simpa [ImgDir.names] using hdots
  rw [write_tree_to_img, if_pos hall, writeHostEntries_regular host hreg]
  simp

/-- C1 witness: a concrete two-level host tree written into an empty root
directory. -/
theorem write_tree_to_img_correct_witness :
    write_tree_to_img ⟨[], []⟩
        [HostNode.dir "d" [HostNode.file "a" [1, 2]], HostNode.file "b" []] =
      .ok ([ImgNode.dir "d" [ImgNode.file "a" [1, 2]], ImgNode.file "b" []], []) := by
  have h := write_tree_to_img_correct []
      [HostNode.dir "d" [HostNode.file "a" [1, 2]], HostNode.file "b" []]
      (by decide) (by simp [isRegularList])
  rw [h]
  simp [hostToImgList]

/-- C2: for a host tree of only regular files and directories, `TreeWriter`
into a fresh image directory followed by the spec-modelled `TreeReader` into
a fresh host destination reproduces the original tree exactly: identical
structure and byte-identical file contents. -/
theorem write_then_read_round_trip (host : List HostNode)
    (hreg : isRegularList host = true) :
    (write_tree_to_img ⟨[], []⟩ host).map (fun res => read_tree_to_host res.1) =
      Except.ok host := by
  rw [write_tree_to_img, if_pos (by decide), writeHostEntries_regular host hreg]
  simp [Except.map, read_tree_hostToImgList host hreg]

/-- C2 witness: the round trip at a concrete two-level host tree. -/
theorem write_then_read_round_trip_witness :
    (write_tree_to_img ⟨[], []⟩
          [HostNode.dir "d" [HostNode.file "a" [1, 2]], HostNode.file "b" []]).map
        (fun res => read_tree_to_host res.1) =
      Except.ok [HostNode.dir "d" [HostNode.file "a" [1, 2]], HostNode.file "b" []] :=
  write_then_read_round_trip
    [HostNode.dir "d" [HostNode.file "a" [1, 2]], HostNode.file "b" []]
    (by simp [isRegularList])

/-- C3: when the destination image directory already holds an entry whose
name is neither `.` nor `..`, `write_tree_to_img` fails with the
non-empty-directory error instead of merging. -/
theorem write_tree_conflict_fails (cursor : ImgDir) (host : List HostNode)
    (n : String) (hn : n ∈ cursor.names) (hnd : isDotName n = false) :
    write_tree_to_img cursor host = .error "Ovewrite non-empty directory?" := by
  have hfalse : ¬ (cursor.names.all isDotName = true) := by
    rw [List.all_eq_true]
    intro hall
    have hd := hall n hn
    rw [hnd] at hd
    exact Bool.false_ne_true hd
  rw [write_tree_to_img, if_neg hfalse]

/-- C3 witness: a destination holding one real entry `x` rejects the write. -/
theorem write_tree_conflict_fails_witness :
    write_tree_to_img ⟨[], [ImgNode.file "x" []]⟩ [HostNode.file "a" [1]] =
      .error "Ovewrite non-empty directory?" :=
  write_tree_conflict_fails ⟨[], [ImgNode.file "x" []]⟩ [HostNode.file "a" [1]]
    "x" (by simp [ImgDir.names, ImgNode.name]) (by decide)

/-- C4 counterexample: a host entry of a special kind (device, socket, ...)
is skipped with NO diagnostic warning — the write succeeds with an empty
warning list, contradicting the claimed skip-with-warning policy for
non-symlink special kinds. -/
theorem write_tree_special_silent_counterexample :
    write_tree_to_img ⟨[], []⟩ [HostNode.special "dev0"] = .ok ([], []) := by
  rw [write_tree_to_img, if_pos (by decide), writeHostEntries, writeHostEntries]
  simp

/-- C4 amended: a symlink host entry emits the diagnostic warning, creates
no image entry, and traversal continues with the remaining entries; any
other non-regular host entry creates no image entry and traversal continues,
but silently, with no warning emitted. -/
theorem write_tree_skips_non_regular (n : String) (rest : List HostNode) :
    writeHostEntries (HostNode.symlink n :: rest) =
      (writeHostEntries rest).map
        (fun res => (res.1, "Warning: Not copying a symlink" :: res.2)) ∧
    writeHostEntries (HostNode.special n :: rest) = writeHostEntries rest := by
  constructor
  · rw [writeHostEntries]
    cases h : writeHostEntries rest with
    | ok res => cases res with | _ created warns => simp [Except.map]
    | error e => simp [Except.map]
  · rw [writeHostEntries]

/-- C10: with a destination image directory holding any entry not named `.`
or `..`, `write_tree_to_img` aborts during the initial destination
inspection: the outcome is the same error for every host tree (so no host
entry is ever consulted) and no image node is created. -/
theorem write_tree_conflict_aborts_before_host_read (cursor : ImgDir)
    (n : String) (hn : n ∈ cursor.names) (hnd : isDotName n = false) :
    ∀ host host' : List HostNode,
      write_tree_to_img cursor host = write_tree_to_img cursor host' ∧
      write_tree_to_img cursor host = .error "Ovewrite non-empty directory?" := by
  have hfalse : ¬ (cursor.names.all isDotName = true) := by
    rw [List.all_eq_true]
    intro hall
    have hd := hall n hn
    rw [hnd] at hd
    exact Bool.false_ne_true hd
  have herr : ∀ host : List HostNode,
      write_tree_to_img cursor host = .error "Ovewrite non-empty directory?" := by
    intro host
    rw [write_tree_to_img, if_neg hfalse]
  intro host host'
  exact ⟨(herr host).trans (herr host').symm, herr host⟩

/-- C10 witness: with the conflicting entry `x` present, two different host
trees produce the identical early error. -/
theorem write_tree_conflict_aborts_before_host_read_witness :
    write_tree_to_img ⟨[], [ImgNode.file "x" []]⟩ [HostNode.file "a" [1]] =
      write_tree_to_img ⟨[], [ImgNode.file "x" []]⟩ [] ∧
    write_tree_to_img ⟨[], [ImgNode.file "x" []]⟩ [HostNode.file "a" [1]] =
      .error "Ovewrite non-empty directory?" :=
  write_tree_conflict_aborts_before_host_read ⟨[], [ImgNode.file "x" []]⟩
    "x" (by simp [ImgDir.names, ImgNode.name]) (by decide)
    [HostNode.file "a" [1]] []

/-- A FAT date as `fatfs::Date` exposes it: year, month, day. -/
structure Date where
  year : Nat
  month : Nat
  day : Nat

/-- A FAT time as `fatfs::Time` exposes it. -/
structure Time where
  hour : Nat
  min : Nat
  sec : Nat
  millis : Nat

/-- A FAT timestamp as `fatfs::DateTime` exposes it. -/
structure DateTime where
  date : Date
  time : Time

/-- Zero padding to a minimum width, as the Rust format specifiers
`{:04}`/`{:02}`/`{:03}` do. -/
def padZeros (w n : Nat) : String :=
  String.mk (List.replicate (w - (toString n).length) '0') ++ toString n

/-- Embedding of `print_date` (src/main.rs lines 113-115). -/
def print_date (d : Date) : String :=
  padZeros 4 d.year ++ "-" ++ padZeros 2 d.month ++ "-" ++ padZeros 2 d.day

/-- Embedding of `print_time` (src/main.rs lines 117-122). -/
def print_time (t : Time) : String :=
  padZeros 2 t.hour ++ ":" ++ padZeros 2 t.min ++ ":" ++ padZeros 2 t.sec ++
    "." ++ padZeros 3 t.millis

/-- Embedding of `print_datetime` (src/main.rs lines 124-128). -/
def print_datetime (dt : DateTime) : String :=
  print_date dt.date ++ " " ++ print_time dt.time

/-- Per-entry metadata the backend yields during directory enumeration: the
debug-rendered attribute token and the three timestamps. -/
structure EntryMeta where
  attrs : String
  created : DateTime
  modified : DateTime
  accessed : Date

/-- An image directory entry as `print_ls` sees it through `cursor.iter()`:
a file with its byte length or a directory with its child entries. Entries
named `.` or `..` are represented like any other and filtered by name. -/
inductive LsNode where
  | file (name : String) (meta : EntryMeta) (size : Nat)
  | dir (name : String) (meta : EntryMeta) (children : List LsNode)

def LsNode.name : LsNode → String
  | .file n _ _ => n
  | .dir n _ _ => n

def LsNode.meta : LsNode → EntryMeta
  | .file _ m _ => m
  | .dir _ m _ => m

def LsNode.isFile : LsNode → Bool
  | .file _ _ _ => true
  | .dir _ _ _ => false

def LsNode.isDir : LsNode → Bool
  | .file _ _ _ => false
  | .dir _ _ _ => true

def LsNode.sizeBytes : LsNode → Nat
  | .file _ _ s => s
  | .dir _ _ _ => 0

/-- The `"  ".repeat(indent)` prefix of `print_ls`. -/
def indentStr : Nat → String
  | 0 => ""
  | n + 1 => "  " ++ indentStr n

/-- The successive `print!` arguments one iteration of the `print_ls` loop
emits for one entry, in source order (src/main.rs lines 142-168): the indent
prefix, then each tier-gated metadata piece, and finally the `println!` pair
of the entry name and the `/` suffix for directories. -/
def entryPrints (indent long : Nat) (e : LsNode) : List String :=
  [indentStr indent] ++
  (if 3 ≤ long then ["created ", print_datetime e.meta.created, " "] else []) ++
  (if 2 ≤ long then ["modified ", print_datetime e.meta.modified, " "] else []) ++
  (if 3 ≤ long then ["accessed ", print_date e.meta.accessed, " "] else []) ++
  (if 1 ≤ long then
    [e.meta.attrs ++ " "] ++
      (if e.isFile then ["size " ++ toString e.sizeBytes ++ " "] else [])
  else []) ++
  [e.name, if e.isDir then "/" else ""]

/-- Concatenation of a sequence of print fragments into the emitted text. -/
def concatAll : List String → String
  | [] => ""
  | s :: rest => s ++ concatAll rest

/-- One output line of `print_ls` for one entry: everything printed between
two line breaks, concatenated. -/
def entryLine (indent long : Nat) (e : LsNode) : String :=
  concatAll (entryPrints indent long e)

/-- Embedding of `print_ls` (src/main.rs lines 130-175) as the list of
output lines: entries named `.` or `..` are skipped; every other entry
yields its own line, followed, when `recursive` is set and the entry is a
directory, by the lines of the subdirectory at one deeper indent, and then
by the lines of the remaining siblings. -/
def print_ls (long : Nat) (recursive : Bool) (indent : Nat) :
    List LsNode → List String
  | [] => []
  | LsNode.file n m s :: rest =>
    if isDotName n then
      print_ls long recursive indent rest
    else
      entryLine indent long (LsNode.file n m s) :: print_ls long recursive indent rest
  | LsNode.dir n m ch :: rest =>
    if isDotName n then
      print_ls long recursive indent rest
    else
      entryLine indent long (LsNode.dir n m ch) ::
        ((if recursive then print_ls long recursive (indent + 1) ch else []) ++
          print_ls long recursive indent rest)

/-- The listing line as §4.2 of the specification words it: the indent, then
`created <date> <time>` at tier at least 3, `modified <date> <time>` at tier
at least 2, `accessed <date>` at tier at least 3, the attribute token and
(files only) `size <byte-length>` at tier at least 1, and always the entry
name with a `/` suffix for directories. -/
def entryLineSpec (indent long : Nat) (e : LsNode) : String :=
  indentStr indent ++
  (if long ≥ 3 then "created " ++ print_datetime e.meta.created ++ " " else "") ++
  (if long ≥ 2 then "modified " ++ print_datetime e.meta.modified ++ " " else "") ++
  (if long ≥ 3 then "accessed " ++ print_date e.meta.accessed ++ " " else "") ++
  (if long ≥ 1 then
    e.meta.attrs ++ " " ++
      (if e.isFile then "size " ++ toString e.sizeBytes ++ " " else "")
  else "") ++
  e.name ++ (if e.isDir then "/" else "")

theorem concatAll_append (l₁ l₂ : List String) :
    concatAll (l₁ ++ l₂) = concatAll l₁ ++ concatAll l₂ := by
  induction l₁ with
  | nil => rw [List.nil_append, concatAll, String.empty_append]
  | cons s rest ih =>
    rw [List.cons_append, concatAll, concatAll, ih, String.append_assoc]

/-- C9: the line `print_ls` emits for an entry is exactly the line the
specification describes: each metadata piece appears in the specified order
and exactly when the verbosity tier reaches its threshold. -/
theorem entryLine_matches_spec (indent long : Nat) (e : LsNode) :
    entryLine indent long e = entryLineSpec indent long e := by
  rw [entryLine, entryPrints, entryLineSpec]
  split_ifs <;>
    simp [concatAll, String.append_assoc, String.append_empty, String.empty_append]

/-- Fixed sample metadata for the concrete listing example. -/
def exampleMeta : EntryMeta :=
  ⟨"ARCHIVE", ⟨⟨2024, 1, 2⟩, ⟨3, 4, 5, 6⟩⟩, ⟨⟨2024, 1, 2⟩, ⟨3, 4, 5, 6⟩⟩,
    ⟨2024, 1, 2⟩⟩

/-- The §8 example directory: entries `a.txt`, `sub/`, `.` and `..`. -/
def exampleDirEntries : List LsNode :=
  [LsNode.file "a.txt" exampleMeta 3,
   LsNode.dir "sub" exampleMeta [],
   LsNode.dir "." exampleMeta [],
   LsNode.dir ".." exampleMeta []]

/-- C8: a directory listing emits no line for entries named `.` or `..` and
exactly one line for every other entry, directory lines carrying a `/`
suffix; at tier 0 the §8 example directory yields exactly the two lines
`a.txt` and `sub/`. -/
theorem print_ls_omits_dot_entries :
    (∀ (long indent : Nat) (entries : List LsNode),
      print_ls long false indent entries =
        (entries.filter (fun e => !isDotName e.name)).map
          (fun e => entryLine indent long e)) ∧
    (∀ (indent long : Nat) (n : String) (m : EntryMeta) (ch : List LsNode),
      ∃ s, entryLine indent long (LsNode.dir n m ch) = s ++ "/") ∧
    print_ls 0 false 0 exampleDirEntries = ["a.txt", "sub/"] := by
  have hsuffix : ∀ (indent long : Nat) (n : String) (m : EntryMeta)
      (ch : List LsNode), ∃ s, entryLine indent long (LsNode.dir n m ch) = s ++ "/" := by
    intro indent long n m ch
    rw [entryLine, entryPrints]
    refine ⟨concatAll
      ([indentStr indent] ++
        (if 3 ≤ long then ["created ", print_datetime (LsNode.dir n m ch).meta.created, " "] else []) ++
        (if 2 ≤ long then ["modified ", print_datetime (LsNode.dir n m ch).meta.modified, " "] else []) ++
        (if 3 ≤ long then ["accessed ", print_date (LsNode.dir n m ch).meta.accessed, " "] else []) ++
        (if 1 ≤ long then
          [(LsNode.dir n m ch).meta.attrs ++ " "] ++
            (if (LsNode.dir n m ch).isFile then
              ["size " ++ toString (LsNode.dir n m ch).sizeBytes ++ " "] else [])
        else []) ++ [n]), ?_⟩
    rw [show ([indentStr indent] ++
        (if 3 ≤ long then ["created ", print_datetime (LsNode.dir n m ch).meta.created, " "] else []) ++
        (if 2 ≤ long then ["modified ", print_datetime (LsNode.dir n m ch).meta.modified, " "] else []) ++
        (if 3 ≤ long then ["accessed ", print_date (LsNode.dir n m ch).meta.accessed, " "] else []) ++
        (if 1 ≤ long then
          [(LsNode.dir n m ch).meta.attrs ++ " "] ++
            (if (LsNode.dir n m ch).isFile then
              ["size " ++ toString (LsNode.dir n m ch).sizeBytes ++ " "] else [])
        else []) ++
        [(LsNode.dir n m ch).name, if (LsNode.dir n m ch).isDir then "/" else ""]) =
      ([indentStr indent] ++
        (if 3 ≤ long then ["created ", print_datetime (LsNode.dir n m ch).meta.created, " "] else []) ++
        (if 2 ≤ long then ["modified ", print_datetime (LsNode.dir n m ch).meta.modified, " "] else []) ++
        (if 3 ≤ long then ["accessed ", print_date (LsNode.dir n m ch).meta.accessed, " "] else []) ++
        (if 1 ≤ long then
          [(LsNode.dir n m ch).meta.attrs ++ " "] ++
            (if (LsNode.dir n m ch).isFile then
              ["size " ++ toString (LsNode.dir n m ch).sizeBytes ++ " "] else [])
        else []) ++ [n]) ++ ["/"] from by simp [LsNode.name, LsNode.isDir]]
    rw [concatAll_append]
    rw [show concatAll ["/"] = "/" from by
      rw [concatAll, concatAll, String.append_empty]]
  refine ⟨?_, hsuffix, ?_⟩
  · intro long indent entries
    induction entries with
    | nil => rw [print_ls, List.filter_nil, List.map_nil]
    | cons e rest ih =>
      cases e with
      | file n m sz =>
        rw [print_ls]
        by_cases h : isDotName n
        · rw [if_pos h, ih, List.filter_cons_of_neg]
          simp [LsNode.name, h]
        · rw [if_neg h, ih, List.filter_cons_of_pos, List.map_cons]
          simp [LsNode.name, h]
      | dir n m ch =>
        rw [print_ls]
        by_cases h : isDotName n
        · rw [if_pos h, ih, List.filter_cons_of_neg]
          simp [LsNode.name, h]
        · rw [if_neg h]
          rw [if_neg (by simp)]
          rw [List.nil_append, ih, List.filter_cons_of_pos, List.map_cons]
          simp [LsNode.name, h]
  · simp only [exampleDirEntries, print_ls, isDotName, exampleMeta]
    norm_num [entryLine, entryPrints, concatAll, indentStr, LsNode.name,
      LsNode.isDir, LsNode.isFile, LsNode.meta, String.append_empty,
      String.empty_append]
    decide
